import Mathlib

set_option maxHeartbeats 1000000

/-!
Verification of the configuration loading and mode merging core of
packages/build-scripts/src/utils/loadConfig.ts.

Strings are modelled as lists of characters; JavaScript objects whose
contractual fields matter here are modelled as structures with an
association list for the remaining fields; collaborators that live
outside the repository (module loaders, the compiler, the file system,
the glob search) are modelled as explicit oracle parameters.
-/

/-- Strings are modelled as lists of characters. -/
abbrev Str := List Char

/-- Boolean test that the first list is a leading segment of the second. -/
def isPrefList : Str → Str → Bool
  | [], _ => true
  | _ :: _, [] => false
  | a :: p, b :: s => (a == b) && isPrefList p s

/-- Boolean test that suf ends s, mirroring String.endsWith of the runtime. -/
def isSufList (suf s : Str) : Bool := isPrefList suf.reverse s.reverse

/-- Replace the first occurrence of pat by rep, scanning left to right;
this mirrors String.prototype.replace with a string search value, which
substitutes only the first occurrence. -/
def replaceFirst (pat rep : Str) : Str → Str
  | [] => if pat = [] then rep else []
  | a :: s =>
    if isPrefList pat (a :: s) then rep ++ (a :: s).drop pat.length
    else a :: replaceFirst pat rep s

/-- Index of the first occurrence of x, or the length of the list when x is
absent; mirrors Array.prototype.indexOf with the minus-one result mapped to
the length so that the found test becomes a comparison with the length. -/
def idxOf {α : Type} [DecidableEq α] (x : α) : List α → Nat
  | [] => 0
  | a :: l => if a = x then 0 else idxOf x l + 1

/-- First-match lookup in an association list, modelling property access on
a JavaScript object keyed by strings. -/
def lookupA {β : Type} (k : Str) : List (Str × β) → Option β
  | [] => none
  | kv :: rest => if kv.1 = k then some kv.2 else lookupA k rest

/-- A plugin entry of a plugins list: either a bare identifier string or a
pair of an identifier and an options payload, as in the PluginList type of
the repository. -/
inductive PluginEntry (V : Type) : Type where
  | name (id : Str)
  | pair (id : Str) (opts : V)
deriving DecidableEq

/-- The identifier of a plugin entry: the string itself, or the first
element of a pair, exactly as mergeModeConfig computes it. -/
def pluginId {V : Type} : PluginEntry V → Str
  | PluginEntry.name s => s
  | PluginEntry.pair s _ => s

/-- The identifier list of a plugins list, as the pluginKeys map inside
mergeModeConfig computes it from the base list. -/
def pluginKeys {V : Type} (l : List (PluginEntry V)) : List Str :=
  l.map pluginId

/-- One entry of modeConfig: a partial user config holding an optional
plugins list, an optional modeConfig field of its own, and the remaining
basic override fields as an association list from field name to value. -/
inductive ModeOverride (V : Type) : Type where
  | mk (plugins : Option (List (PluginEntry V)))
       (modeConfig : Option (List (Str × ModeOverride V)))
       (extra : List (Str × V))

/-- The plugins field of a mode override, absent when the override does not
declare one. -/
def ModeOverride.plugins {V : Type} : ModeOverride V → Option (List (PluginEntry V))
  | ModeOverride.mk p _ _ => p

/-- The modeConfig field of a mode override, absent when the override does
not declare one. -/
def ModeOverride.modeConfig {V : Type} : ModeOverride V → Option (List (Str × ModeOverride V))
  | ModeOverride.mk _ m _ => m

/-- The basic override fields of a mode override, without plugins and
without modeConfig. -/
def ModeOverride.extra {V : Type} : ModeOverride V → List (Str × V)
  | ModeOverride.mk _ _ e => e

/-- A user configuration: a required plugins list, an optional modeConfig
mapping from mode name to override, and arbitrary further top-level fields
as an association list. -/
structure UserConfig (V : Type) : Type where
  plugins : List (PluginEntry V)
  modeConfig : Option (List (Str × ModeOverride V))
  extra : List (Str × V)

/-- One step of the forEach loop over the override plugins inside
mergeModeConfig: replace at the index found in the fixed key list when the
identifier occurs there, otherwise push at the end. -/
def mergeStep {V : Type} (keys : List Str) (acc : List (PluginEntry V))
    (p : PluginEntry V) : List (PluginEntry V) :=
  if idxOf (pluginId p) keys < keys.length then
    acc.set (idxOf (pluginId p) keys) p
  else acc ++ [p]

/-- The same step with the push dropped; used to characterise the replaced
zone of the working list. -/
def replaceStep {V : Type} (keys : List Str) (acc : List (PluginEntry V))
    (p : PluginEntry V) : List (PluginEntry V) :=
  if idxOf (pluginId p) keys < keys.length then
    acc.set (idxOf (pluginId p) keys) p
  else acc

/-- The plugin-list reconciliation of mergeModeConfig: starting from a copy
of the base list, each override entry in listed order replaces at the first
index of its identifier in the base key list when present there, else is
pushed at the end. The key list is computed once from the base list, as in
the source. -/
def mergePlugins {V : Type} (base ov : List (PluginEntry V)) : List (PluginEntry V) :=
  ov.foldl (mergeStep (pluginKeys base)) base

/-- The replace-only part of the reconciliation. -/
def replaceCore {V : Type} (base ov : List (PluginEntry V)) : List (PluginEntry V) :=
  ov.foldl (replaceStep (pluginKeys base)) base

/-- The override entries whose identifier does not occur in the base key
list; these are the appended entries, in override order. -/
def newPlugins {V : Type} (base ov : List (PluginEntry V)) : List (PluginEntry V) :=
  ov.filter (fun p => decide ((pluginKeys base).length ≤ idxOf (pluginId p) (pluginKeys base)))

/-- Shallow JavaScript object spread of the override fields over the base
fields: every base field keeps its place with the override value when one
exists, and override-only fields are appended in override order. -/
def spreadFields {β : Type} (base ov : List (Str × β)) : List (Str × β) :=
  base.map (fun kv => (kv.1, (lookupA kv.1 ov).getD kv.2))
    ++ ov.filter (fun kv => (lookupA kv.1 base).isNone)

/-- mergeModeConfig of loadConfig.ts: when modeConfig is present, the mode
string is nonempty and modeConfig holds an entry for the mode, reconcile
the plugin lists and spread the remaining override fields shallowly over
the configuration; otherwise return the input unchanged. -/
def mergeModeConfig {V : Type} (mode : Str) (userConfig : UserConfig V) : UserConfig V :=
  match userConfig.modeConfig with
  | none => userConfig
  | some mc =>
    if mode = [] then userConfig
    else
      match lookupA mode mc with
      | none => userConfig
      | some ov =>
        let userPlugins :=
          match ov.plugins with
          | some plugins => mergePlugins userConfig.plugins plugins
          | none => userConfig.plugins
        { plugins := userPlugins
          modeConfig :=
            match ov.modeConfig with
            | some m => some m
            | none => userConfig.modeConfig
          extra := spreadFields userConfig.extra ov.extra }

/-- A value thrown by module execution: either an Error carrying a message
and a stack text, or any other value. -/
inductive Thrown (J : Type) : Type where
  | jsError (message stack : Str)
  | other (j : J)
deriving DecidableEq

/-- The transient state touched by executeTypescriptModule: the file system
as a map from path to content, and the require cache membership. -/
structure ExecState : Type where
  fs : Str → Option Str
  cache : Str → Bool

/-- The outcome of executeTypescriptModule: the returned or thrown value,
and the final transient state. -/
structure ExecOut (J : Type) : Type where
  result : Except (Thrown J) J
  state : ExecState

/-- The derived temporary artifact path of executeTypescriptModule: the
original path with an mjs or cjs suffix for the target module system. -/
def tempPath (filePath : Str) (isEsm : Bool) : Str :=
  filePath ++ (if isEsm then ".mjs".toList else ".cjs".toList)

/-- The module load picked by executeTypescriptModule: dynamic import for
the asynchronous system, require for the synchronous one. -/
def loadArtifact {J : Type} (loadEsm loadCjs : Str → Except (Thrown J) J)
    (isEsm : Bool) (p : Str) : Except (Thrown J) J :=
  if isEsm then loadEsm p else loadCjs p

/-- executeTypescriptModule of loadConfig.ts: write the compiled code to
the derived temporary path, drop that path from the require cache, load
the artifact, extract the default export when present, delete the artifact
on the success path and on the failure path, and on an Error failure
rewrite message and stack by substituting the original path for the
temporary one before re-raising. The two loaders and the default-export
extraction are oracles for the external module systems. -/
def executeTypescriptModule {J : Type} (loadEsm loadCjs : Str → Except (Thrown J) J)
    (defaultField : J → Option J) (st : ExecState)
    (code filePath : Str) (isEsm : Bool) : ExecOut J :=
  let tempFile := tempPath filePath isEsm
  let fsWritten : Str → Option Str := fun p => if p = tempFile then some code else st.fs p
  let cacheCleared : Str → Bool := fun p => if p = tempFile then false else st.cache p
  let fsCleaned : Str → Option Str := fun p => if p = tempFile then none else fsWritten p
  match loadArtifact loadEsm loadCjs isEsm tempFile with
  | Except.error e =>
    let e2 :=
      match e with
      | Thrown.jsError m s =>
        Thrown.jsError (replaceFirst tempFile filePath m) (replaceFirst tempFile filePath s)
      | Thrown.other j => Thrown.other j
    ExecOut.mk (Except.error e2) (ExecState.mk fsCleaned cacheCleared)
  | Except.ok raw =>
    ExecOut.mk (Except.ok ((defaultField raw).getD raw)) (ExecState.mk fsCleaned cacheCleared)

/-- Configuration payloads loaded from files, as an untyped JSON-like value. -/
inductive Json : Type where
  | null
  | bool (b : Bool)
  | num (n : Int)
  | str (s : Str)
  | arr (xs : List Json)
  | obj (fields : List (Str × Json))

/-- Drop the rest of a line comment, up to and including the newline. -/
def dropLineComment : Str → Str
  | [] => []
  | '\n' :: r => r
  | _ :: r => dropLineComment r

/-- Drop a block comment, up to and including the closing delimiter. -/
def dropBlockComment : Str → Str
  | [] => []
  | '*' :: '/' :: r => r
  | _ :: r => dropBlockComment r

/-- Skip whitespace, line comments and block comments, with fuel. -/
def skipWs : Nat → Str → Str
  | 0, s => s
  | f + 1, s =>
    match s with
    | ' ' :: r => skipWs f r
    | '\n' :: r => skipWs f r
    | '\t' :: r => skipWs f r
    | '\r' :: r => skipWs f r
    | '/' :: '/' :: r => skipWs f (dropLineComment r)
    | '/' :: '*' :: r => skipWs f (dropBlockComment r)
    | _ => s

/-- Decimal digit test. -/
def isDigitC (c : Char) : Bool := '0' ≤ c && c ≤ '9'

/-- Identifier character test for unquoted keys. -/
def isIdentC (c : Char) : Bool := c.isAlpha || isDigitC c || c == '_' || c == '$'

/-- Split off a maximal run of identifier characters. -/
def takeIdent : Str → Str × Str
  | [] => ([], [])
  | c :: r =>
    if isIdentC c then
      let (i, rest) := takeIdent r
      (c :: i, rest)
    else ([], c :: r)

/-- Split off a maximal run of decimal digits. -/
def takeDigits : Str → Str × Str
  | [] => ([], [])
  | c :: r =>
    if isDigitC c then
      let (d, rest) := takeDigits r
      (c :: d, rest)
    else ([], c :: r)

/-- Numeric value of a digit run. -/
def digitsToNat (ds : Str) : Nat :=
  ds.foldl (fun n c => n * 10 + (c.toNat - '0'.toNat)) 0

/-- Read the body of a double-quoted string after the opening quote, up to
the closing quote, resolving simple escapes. -/
def takeStringBody : Str → Option (Str × Str)
  | [] => none
  | '"' :: r => some ([], r)
  | '\\' :: c :: r =>
    let ec := if c == 'n' then '\n' else if c == 't' then '\t' else c
    match takeStringBody r with
    | some (b, rest) => some (ec :: b, rest)
    | none => none
  | c :: r =>
    match takeStringBody r with
    | some (b, rest) => some (c :: b, rest)
    | none => none

/-- Read an object key: a quoted string or an unquoted identifier. -/
def parseKey (s : Str) : Option (Str × Str) :=
  match s with
  | '"' :: r => takeStringBody r
  | c :: _ =>
    if isIdentC c && !isDigitC c then some (takeIdent s)
    else none
  | [] => none

mutual

/-- Modelled from the spec: the external JSON-superset (JSON5) value
grammar used for structured-data configuration files, permitting comments,
trailing commas and unquoted keys; the library itself is outside the
repository, so this follows the words of the specification. -/
def parseValue : Nat → Str → Option (Json × Str)
  | 0, _ => none
  | f + 1, s =>
    let s1 := skipWs (s.length + 1) s
    match s1 with
    | '\x7b' :: r => parseMembers f r []
    | '[' :: r => parseElems f r []
    | '"' :: r =>
      match takeStringBody r with
      | some (b, rest) => some (Json.str b, rest)
      | none => none
    | '-' :: r =>
      match takeDigits r with
      | (d :: ds, rest) => some (Json.num (-(digitsToNat (d :: ds) : Int)), rest)
      | ([], _) => none
    | _ =>
      match takeDigits s1 with
      | (d :: ds, rest) => some (Json.num ((digitsToNat (d :: ds) : Int)), rest)
      | ([], _) =>
        match takeIdent s1 with
        | ('t' :: 'r' :: 'u' :: 'e' :: [], rest) => some (Json.bool true, rest)
        | ('f' :: 'a' :: 'l' :: 's' :: 'e' :: [], rest) => some (Json.bool false, rest)
        | ('n' :: 'u' :: 'l' :: 'l' :: [], rest) => some (Json.null, rest)
        | _ => none

/-- Modelled from the spec: object members with unquoted keys, comments
and a tolerated trailing comma. -/
def parseMembers : Nat → Str → List (Str × Json) → Option (Json × Str)
  | 0, _, _ => none
  | f + 1, s, acc =>
    let s1 := skipWs (s.length + 1) s
    match s1 with
    | '\x7d' :: r => some (Json.obj acc.reverse, r)
    | _ =>
      match parseKey s1 with
      | none => none
      | some (k, rest) =>
        let rest1 := skipWs (rest.length + 1) rest
        match rest1 with
        | ':' :: r2 =>
          match parseValue f r2 with
          | none => none
          | some (v, r3) =>
            let r4 := skipWs (r3.length + 1) r3
            match r4 with
            | ',' :: r5 => parseMembers f r5 ((k, v) :: acc)
            | '\x7d' :: r5 => some (Json.obj ((k, v) :: acc).reverse, r5)
            | _ => none
        | _ => none

/-- Modelled from the spec: array elements with comments and a tolerated
trailing comma. -/
def parseElems : Nat → Str → List Json → Option (Json × Str)
  | 0, _, _ => none
  | f + 1, s, acc =>
    let s1 := skipWs (s.length + 1) s
    match s1 with
    | ']' :: r => some (Json.arr acc.reverse, r)
    | _ =>
      match parseValue f s1 with
      | none => none
      | some (v, r2) =>
        let r3 := skipWs (r2.length + 1) r2
        match r3 with
        | ',' :: r4 => parseElems f r4 (v :: acc)
        | ']' :: r4 => some (Json.arr (v :: acc).reverse, r4)
        | _ => none

end

/-- Modelled from the spec: JSON5.parse on a whole input, failing on any
residue after the value. -/
def json5Parse (s : Str) : Except Str Json :=
  match parseValue (s.length + 1) s with
  | some (v, rest) =>
    if skipWs (rest.length + 1) rest = [] then Except.ok v
    else Except.error ("unexpected trailing characters".toList)
  | none => Except.error ("invalid structured data".toList)

/-- The module-system classification of loadConfig: asynchronous-import
based when the path ends with the letters of mjs or mts, or when the
package manifest declares the module type and the path ends with the
letters of js or ts; the suffix test is a raw string ending without a
required dot, as String.endsWith performs it. -/
def isESMPath (isTypeModule : Bool) (filePath : Str) : Bool :=
  (isSufList ("mjs".toList) filePath || isSufList ("mts".toList) filePath)
    || (isTypeModule && (isSufList ("js".toList) filePath || isSufList ("ts".toList) filePath))

/-- The classification as the claim words it, requiring a dotted suffix:
written from the words of the claim for comparison with isESMPath. -/
def claimDottedESM (isTypeModule : Bool) (filePath : Str) : Bool :=
  (isSufList (".mjs".toList) filePath || isSufList (".mts".toList) filePath)
    || (isTypeModule && (isSufList (".js".toList) filePath || isSufList (".ts".toList) filePath))

/-- The external collaborators of loadConfig: file reading, the two module
loaders, default-export extraction, and the compiler for typed sources. -/
structure LoadEnv : Type where
  readFile : Str → Str
  dynImport : Str → Except (Thrown Json) Json
  requireLoad : Str → Except (Thrown Json) Json
  defaultField : Json → Option Json
  compile : Str → Bool → Except (Thrown Json) Str

/-- The structured-data branch of loadConfig: parse the file content with
the JSON-superset parser and surface a parse failure as a thrown error. -/
def jsonOutcome (content : Str) : Except (Thrown Json) (Option Json) :=
  match json5Parse content with
  | Except.ok j => Except.ok (some j)
  | Except.error e => Except.error (Thrown.jsError e e)

/-- loadConfig of loadConfig.ts: return the parsed structured data for a
json path; otherwise dynamically import and take the default export when
classified asynchronous and the path is a plain script, require and take
the whole export when classified synchronous, and for a typed source
compile for the classified target then run executeTypescriptModule; a path
matching no branch yields an absent value. -/
def loadConfig (env : LoadEnv) (st : ExecState) (isTypeModule : Bool)
    (filePath : Str) : Except (Thrown Json) (Option Json) × ExecState :=
  let isJson := isSufList (".json".toList) filePath
  let isTs := isSufList ("ts".toList) filePath
  let isJs := isSufList ("js".toList) filePath
  let isESM := isESMPath isTypeModule filePath
  if isJson then (jsonOutcome (env.readFile filePath), st)
  else if isESM && isJs then
    (match env.dynImport filePath with
     | Except.ok ns => Except.ok (env.defaultField ns)
     | Except.error e => Except.error e, st)
  else if !isESM && isJs then
    (match env.requireLoad filePath with
     | Except.ok v => Except.ok (some v)
     | Except.error e => Except.error e, st)
  else if isTs then
    match env.compile filePath isESM with
    | Except.error e => (Except.error e, st)
    | Except.ok code =>
      let out := executeTypescriptModule env.dynImport env.requireLoad env.defaultField
        st code filePath isESM
      (match out.result with
       | Except.ok v => Except.ok (some v)
       | Except.error e => Except.error e, out.state)
  else (Except.ok none, st)

/-- Modelled from the spec: the absolute-path test of the Node path
collaborator, restricted to posix paths. -/
def pathIsAbsolute (p : Str) : Bool :=
  match p with
  | '/' :: _ => true
  | _ => false

/-- Modelled from the spec: resolution of a path against a root directory
by the Node path collaborator, for already normalised inputs. -/
def pathResolve (root p : Str) : Str :=
  if pathIsAbsolute p then p else root ++ '/' :: p

/-- resolveConfigFile of loadConfig.ts: a truthy explicit path is used
as-is when absolute and resolved against the root directory otherwise,
with no existence check; without an explicit path the first match of the
glob search oracle is taken, absent when the search finds nothing. -/
def resolveConfigFile (searchMatches : List Str) (configArg : Option Str)
    (rootDir : Str) : Option Str :=
  match configArg with
  | some c =>
    if c = [] then searchMatches.head?
    else some (if pathIsAbsolute c then c else pathResolve rootDir c)
  | none => searchMatches.head?

/-- Identifier A of the worked example. -/
def keyA : Str := 'A' :: []

/-- Identifier B of the worked example. -/
def keyB : Str := 'B' :: []

/-- Identifier C of the worked example. -/
def keyC : Str := 'C' :: []

/-- The mode name of the worked examples. -/
def modeDev : Str := 'm' :: []

/-- Override plugins of the worked example: B with options 2, then C. -/
def psC1 : List (PluginEntry Nat) := [PluginEntry.pair keyB 2, PluginEntry.name keyC]

/-- Override of the worked example. -/
def ovC1 : ModeOverride Nat := ModeOverride.mk (some psC1) none []

/-- Mode mapping of the worked example. -/
def mcC1 : List (Str × ModeOverride Nat) := [(modeDev, ovC1)]

/-- Configuration of the worked example: plugins A and B with options 1. -/
def cfgC1 : UserConfig Nat :=
  UserConfig.mk [PluginEntry.name keyA, PluginEntry.pair keyB 1] (some mcC1) []

/-- Override plugins listing the identifier C twice. -/
def psC2 : List (PluginEntry Nat) := [PluginEntry.name keyC, PluginEntry.name keyC]

/-- Configuration whose mode override lists the identifier C twice. -/
def cfgC2 : UserConfig Nat :=
  UserConfig.mk [PluginEntry.name keyA]
    (some [(modeDev, ModeOverride.mk (some psC2) none [])]) []

/-- Configuration without a modeConfig mapping. -/
def cfgC5 : UserConfig Nat := UserConfig.mk [PluginEntry.name keyA] none []

/-- The original source path of the execution examples. -/
def fpA : Str := 'a' :: []

/-- An empty transient state. -/
def st0 : ExecState := ExecState.mk (fun _ => none) (fun _ => false)

/-- A default-export extraction oracle returning no default export. -/
def defaultNone : Nat → Option Nat := fun _ => none

/-- A loader oracle throwing an Error whose message and stack each embed
the temporary path once. -/
def loadCe3 : Str → Except (Thrown Nat) Nat :=
  fun _ => Except.error (Thrown.jsError ("a.mjs boom".toList) ("at a.mjs".toList))

/-- A loader oracle throwing an Error whose message embeds the temporary
path twice. -/
def loadCe3b : Str → Except (Thrown Nat) Nat :=
  fun _ => Except.error (Thrown.jsError ("a.mjs a.mjs".toList) [])

/-- A loader oracle throwing a value that is not an Error. -/
def loadCe10 : Str → Except (Thrown Nat) Nat :=
  fun _ => Except.error (Thrown.other 7)

/-- A collaborator bundle whose reading oracle returns the worked
structured-data example with a comment and a trailing comma. -/
def envJ : LoadEnv :=
  LoadEnv.mk (fun _ => ("\x7ba:1, /*c*/ b:2,\x7d".toList))
    (fun _ => Except.ok Json.null) (fun _ => Except.ok Json.null)
    (fun _ => none) (fun _ _ => Except.ok [])

/-! Helper lemmas about lists, lookup and the boolean tests. -/

theorem getElem?_some_lt {α : Type} (l : List α) (i : Nat) (a : α)
    (h : l[i]? = some a) : i < l.length := by
  induction l generalizing i with
  | nil => simp at h
  | cons b t ih =>
    cases i with
    | zero => simp
    | succ j =>
      simp only [List.getElem?_cons_succ] at h
      simpa [Nat.succ_lt_succ_iff] using ih j h

theorem getElem?_set_self {α : Type} (l : List α) (i : Nat) (a : α)
    (h : i < l.length) : (l.set i a)[i]? = some a := by
  induction l generalizing i with
  | nil => simp at h
  | cons b t ih =>
    cases i with
    | zero => simp
    | succ j =>
      simp only [List.set_cons_succ, List.getElem?_cons_succ]
      exact ih j (by simpa [Nat.succ_lt_succ_iff] using h)

theorem getElem?_set_ne {α : Type} (l : List α) (i j : Nat) (a : α)
    (h : i ≠ j) : (l.set i a)[j]? = l[j]? := by
  induction l generalizing i j with
  | nil => simp
  | cons b t ih =>
    cases i with
    | zero =>
      cases j with
      | zero => exact absurd rfl h
      | succ j' => simp
    | succ i' =>
      cases j with
      | zero => simp
      | succ j' =>
        simp only [List.set_cons_succ, List.getElem?_cons_succ]
        exact ih i' j' (fun hc => h (by rw [hc]))

theorem set_append_left {α : Type} (l₁ l₂ : List α) (i : Nat) (a : α)
    (h : i < l₁.length) : (l₁ ++ l₂).set i a = l₁.set i a ++ l₂ := by
  induction l₁ generalizing i with
  | nil => simp at h
  | cons b t ih =>
    cases i with
    | zero => simp
    | succ j =>
      simp only [List.cons_append, List.set_cons_succ]
      rw [ih j (by simpa [Nat.succ_lt_succ_iff] using h)]

theorem map_set {α β : Type} (f : α → β) (l : List α) (i : Nat) (a : α) :
    (l.set i a).map f = (l.map f).set i (f a) := by
  induction l generalizing i with
  | nil => simp
  | cons b t ih =>
    cases i with
    | zero => simp
    | succ j => simp [ih j]

theorem set_of_getElem?_eq {α : Type} (l : List α) (i : Nat) (a : α)
    (h : l[i]? = some a) : l.set i a = l := by
  induction l generalizing i with
  | nil => simp
  | cons b t ih =>
    cases i with
    | zero => simp at h; simp [h]
    | succ j =>
      simp only [List.getElem?_cons_succ] at h
      simp [ih j h]

theorem getLast?_append_singleton {α : Type} (l : List α) (a : α) :
    (l ++ [a]).getLast? = some a := by
  induction l with
  | nil => rfl
  | cons b t ih =>
    rw [List.cons_append, List.getLast?_cons]
    simp [ih]

theorem getElem?_append_lt {α : Type} (l₁ l₂ : List α) (i : Nat)
    (h : i < l₁.length) : (l₁ ++ l₂)[i]? = l₁[i]? := by
  induction l₁ generalizing i with
  | nil => simp at h
  | cons b t ih =>
    cases i with
    | zero => simp
    | succ j =>
      simp only [List.cons_append, List.getElem?_cons_succ]
      exact ih j (by simpa [Nat.succ_lt_succ_iff] using h)

theorem drop_len_append {α : Type} (l₁ l₂ : List α) :
    (l₁ ++ l₂).drop l₁.length = l₂ := by
  induction l₁ with
  | nil => simp
  | cons b t ih => simp [ih]

theorem idxOf_lt_length_iff {α : Type} [DecidableEq α] (x : α) (l : List α) :
    idxOf x l < l.length ↔ x ∈ l := by
  induction l with
  | nil => simp [idxOf]
  | cons a t ih =>
    by_cases h : a = x
    · subst h; simp [idxOf]
    · simp only [idxOf, if_neg h, List.length_cons, Nat.succ_lt_succ_iff, ih, List.mem_cons]
      constructor
      · exact fun hm => Or.inr hm
      · rintro (rfl | hm)
        · exact absurd rfl h
        · exact hm

theorem idxOf_getElem? {α : Type} [DecidableEq α] (x : α) (l : List α)
    (h : idxOf x l < l.length) : l[idxOf x l]? = some x := by
  induction l with
  | nil => simp [idxOf] at h
  | cons a t ih =>
    by_cases ha : a = x
    · subst ha; simp [idxOf]
    · simp only [idxOf, if_neg ha] at h ⊢
      simp only [List.getElem?_cons_succ]
      exact ih (by simpa [Nat.succ_lt_succ_iff] using h)

theorem isPrefList_iff (p : Str) : ∀ s : Str, isPrefList p s = true ↔ p <+: s := by
  induction p with
  | nil =>
    intro s
    simp only [isPrefList, true_iff]
    exact ⟨s, rfl⟩
  | cons a p ih =>
    intro s
    cases s with
    | nil =>
      simp only [isPrefList, Bool.false_eq_true, false_iff]
      rintro ⟨t, ht⟩
      exact List.noConfusion ht
    | cons b s =>
      simp only [isPrefList, Bool.and_eq_true, beq_iff_eq, ih]
      constructor
      · rintro ⟨rfl, t, rfl⟩
        exact ⟨t, rfl⟩
      · rintro ⟨t, ht⟩
        injection ht with h1 h2
        exact ⟨h1, t, h2⟩

theorem isSufList_iff (suf s : Str) : isSufList suf s = true ↔ suf <:+ s := by
  unfold isSufList
  rw [isPrefList_iff]
  constructor
  · rintro ⟨t, ht⟩
    refine ⟨t.reverse, ?_⟩
    have h2 := congrArg List.reverse ht
    simpa [List.reverse_append] using h2
  · rintro ⟨t, rfl⟩
    exact ⟨t.reverse, by simp [List.reverse_append]⟩

theorem rep_infix_replaceFirst (pat rep : Str) :
    ∀ l : Str, pat <:+: l → rep <:+: replaceFirst pat rep l := by
  intro l
  induction l with
  | nil =>
    intro h
    have hp : pat = [] := by
      rcases h with ⟨s, t, hst⟩
      rcases List.append_eq_nil.mp hst with ⟨h1, h2⟩
      exact (List.append_eq_nil.mp h1).2
    subst hp
    exact ⟨[], [], by simp [replaceFirst]⟩
  | cons a s ih =>
    intro h
    by_cases hp : isPrefList pat (a :: s) = true
    · refine ⟨[], (a :: s).drop pat.length, ?_⟩
      simp [replaceFirst, hp]
    · have hp' : ¬ pat <+: (a :: s) := fun hc => hp ((isPrefList_iff pat (a :: s)).mpr hc)
      have hs : pat <:+: s := by
        rcases h with ⟨s₁, t, hst⟩
        cases s₁ with
        | nil =>
          exact absurd ⟨t, by simpa using hst⟩ hp'
        | cons c s₁ =>
          rw [List.cons_append, List.cons_append] at hst
          injection hst with h1 h2
          exact ⟨s₁, t, by simpa using h2⟩
      rcases ih hs with ⟨s₁, t, h₁⟩
      refine ⟨a :: s₁, t, ?_⟩
      simp only [replaceFirst, if_neg hp]
      simp [h₁]

/-! Characterisation of the plugin-list reconciliation. -/

theorem foldl_mergeStep_append {V : Type} (keys : List Str) :
    ∀ (ov : List (PluginEntry V)) (B A : List (PluginEntry V)), B.length = keys.length →
      ov.foldl (mergeStep keys) (B ++ A)
        = ov.foldl (replaceStep keys) B
            ++ (A ++ ov.filter (fun q => decide (keys.length ≤ idxOf (pluginId q) keys))) := by
  intro ov
  induction ov with
  | nil => intro B A hB; simp
  | cons p ov ih =>
    intro B A hB
    simp only [List.foldl_cons]
    by_cases hlt : idxOf (pluginId p) keys < keys.length
    · have hset : mergeStep keys (B ++ A) p = B.set (idxOf (pluginId p) keys) p ++ A := by
        simp only [mergeStep, if_pos hlt]
        exact set_append_left B A _ p (by rw [hB]; exact hlt)
      have hrep : replaceStep keys B p = B.set (idxOf (pluginId p) keys) p := by
        simp [replaceStep, if_pos hlt]
      have hfil : (p :: ov).filter (fun q => decide (keys.length ≤ idxOf (pluginId q) keys))
          = ov.filter (fun q => decide (keys.length ≤ idxOf (pluginId q) keys)) := by
        simp [List.filter_cons, Nat.not_le.mpr hlt]
      rw [hset, ih _ A (by rw [List.length_set]; exact hB), hfil, hrep]
    · have hset : mergeStep keys (B ++ A) p = B ++ (A ++ [p]) := by
        simp only [mergeStep, if_neg hlt]
        rw [List.append_assoc]
      have hrep : replaceStep keys B p = B := by
        simp [replaceStep, if_neg hlt]
      have hfil : (p :: ov).filter (fun q => decide (keys.length ≤ idxOf (pluginId q) keys))
          = p :: ov.filter (fun q => decide (keys.length ≤ idxOf (pluginId q) keys)) := by
        simp [List.filter_cons, Nat.le_of_not_lt hlt]
      rw [hset, ih B (A ++ [p]) hB, hfil, hrep]
      simp [List.append_assoc]

theorem mergePlugins_split {V : Type} (base ov : List (PluginEntry V)) :
    mergePlugins base ov = replaceCore base ov ++ newPlugins base ov := by
  have h := foldl_mergeStep_append (pluginKeys base) ov base [] (by simp [pluginKeys])
  simpa [mergePlugins, replaceCore, newPlugins] using h

theorem foldl_replaceStep_length {V : Type} (keys : List Str) :
    ∀ (ov acc : List (PluginEntry V)),
      (ov.foldl (replaceStep keys) acc).length = acc.length := by
  intro ov
  induction ov with
  | nil => intro acc; rfl
  | cons p ov ih =>
    intro acc
    simp only [List.foldl_cons]
    rw [ih]
    by_cases hlt : idxOf (pluginId p) keys < keys.length
    · simp [replaceStep, if_pos hlt]
    · simp [replaceStep, if_neg hlt]

theorem replaceCore_length {V : Type} (base ov : List (PluginEntry V)) :
    (replaceCore base ov).length = base.length :=
  foldl_replaceStep_length (pluginKeys base) ov base

theorem replaceCore_getElem? {V : Type} (base ov : List (PluginEntry V)) (i : Nat)
    (b : PluginEntry V) (hb : base[i]? = some b) :
    (replaceCore base ov)[i]? =
      some (((ov.filter (fun q => decide (idxOf (pluginId q) (pluginKeys base) = i))).getLast?).getD b) := by
  have hi : i < base.length := getElem?_some_lt base i b hb
  have hkl : (pluginKeys base).length = base.length := by simp [pluginKeys]
  induction ov using List.reverseRecOn with
  | nil => simp [replaceCore, hb]
  | append_singleton ov p ih =>
    have hrc : replaceCore base (ov ++ [p]) = replaceStep (pluginKeys base) (replaceCore base ov) p := by
      simp [replaceCore, List.foldl_append]
    rw [hrc]
    by_cases hlt : idxOf (pluginId p) (pluginKeys base) < (pluginKeys base).length
    · by_cases heq : idxOf (pluginId p) (pluginKeys base) = i
      · have hstep : replaceStep (pluginKeys base) (replaceCore base ov) p
            = (replaceCore base ov).set i p := by
          rw [← heq]
          simp [replaceStep, if_pos hlt]
        rw [hstep]
        rw [getElem?_set_self _ _ _ (by rw [replaceCore_length]; exact hi)]
        rw [List.filter_append]
        simp [List.filter_cons, heq, getLast?_append_singleton]
      · rw [show replaceStep (pluginKeys base) (replaceCore base ov) p
            = (replaceCore base ov).set (idxOf (pluginId p) (pluginKeys base)) p from by
              simp [replaceStep, if_pos hlt]]
        rw [getElem?_set_ne _ _ _ _ heq, ih]
        simp [List.filter_append, List.filter_cons, heq]
    · rw [show replaceStep (pluginKeys base) (replaceCore base ov) p = replaceCore base ov from by
        simp [replaceStep, if_neg hlt]]
      rw [ih]
      have hne : idxOf (pluginId p) (pluginKeys base) ≠ i := by
        intro hc
        exact hlt (by rw [hc, hkl]; exact hi)
      simp [List.filter_append, List.filter_cons, hne]

theorem foldl_replaceStep_keys {V : Type} (base : List (PluginEntry V)) :
    ∀ (ov acc : List (PluginEntry V)), pluginKeys acc = pluginKeys base →
      pluginKeys (ov.foldl (replaceStep (pluginKeys base)) acc) = pluginKeys base := by
  intro ov
  induction ov with
  | nil => intro acc h; exact h
  | cons p ov ih =>
    intro acc h
    simp only [List.foldl_cons]
    apply ih
    by_cases hlt : idxOf (pluginId p) (pluginKeys base) < (pluginKeys base).length
    · rw [show replaceStep (pluginKeys base) acc p
          = acc.set (idxOf (pluginId p) (pluginKeys base)) p from by
            simp [replaceStep, if_pos hlt]]
      have hmap : pluginKeys (acc.set (idxOf (pluginId p) (pluginKeys base)) p)
          = (pluginKeys acc).set (idxOf (pluginId p) (pluginKeys base)) (pluginId p) :=
        map_set pluginId acc _ p
      rw [hmap, h]
      exact set_of_getElem?_eq _ _ _ (idxOf_getElem? _ _ hlt)
    · rw [show replaceStep (pluginKeys base) acc p = acc from by simp [replaceStep, if_neg hlt]]
      exact h

theorem replaceCore_keys {V : Type} (base ov : List (PluginEntry V)) :
    pluginKeys (replaceCore base ov) = pluginKeys base :=
  foldl_replaceStep_keys base ov base rfl

theorem pluginKeys_append {V : Type} (l₁ l₂ : List (PluginEntry V)) :
    pluginKeys (l₁ ++ l₂) = pluginKeys l₁ ++ pluginKeys l₂ := by
  simp [pluginKeys]

/-! Lookup lemmas for the shallow field spread. -/

theorem lookupA_map_key {β γ : Type} (f : Str → β → γ) (k : Str) :
    ∀ l : List (Str × β),
      lookupA k (l.map (fun kv => (kv.1, f kv.1 kv.2))) = (lookupA k l).map (f k) := by
  intro l
  induction l with
  | nil => rfl
  | cons kv rest ih =>
    obtain ⟨k1, v1⟩ := kv
    by_cases h : k1 = k
    · subst h; simp [lookupA]
    · simp [lookupA, h, ih]

theorem lookupA_append {β : Type} (k : Str) (l₁ l₂ : List (Str × β)) :
    lookupA k (l₁ ++ l₂) = match lookupA k l₁ with
      | some v => some v
      | none => lookupA k l₂ := by
  induction l₁ with
  | nil => simp [lookupA]
  | cons kv rest ih =>
    by_cases h : kv.1 = k
    · simp [lookupA, h]
    · simp [lookupA, h, ih]

theorem lookupA_filter_of_true {β : Type} (k : Str) (p : Str × β → Bool) :
    ∀ l : List (Str × β), (∀ v, p (k, v) = true) →
      lookupA k (l.filter p) = lookupA k l := by
  intro l
  induction l with
  | nil => intro hp; rfl
  | cons kv rest ih =>
    intro hp
    obtain ⟨k1, v1⟩ := kv
    by_cases h : k1 = k
    · subst h
      rw [List.filter_cons, if_pos (hp v1)]
      simp [lookupA, ih hp]
    · rw [List.filter_cons]
      by_cases hpv : p (k1, v1) = true
      · rw [if_pos hpv]
        simp [lookupA, h, ih hp]
      · rw [if_neg hpv]
        simp [lookupA, h, ih hp]

theorem lookupA_spreadFields {β : Type} (k : Str) (b o : List (Str × β)) :
    lookupA k (spreadFields b o) = match lookupA k o with
      | some v => some v
      | none => lookupA k b := by
  unfold spreadFields
  rw [lookupA_append, lookupA_map_key (fun k1 v => (lookupA k1 o).getD v) k b]
  cases hb : lookupA k b with
  | some w =>
    cases ho : lookupA k o <;> simp [ho]
  | none =>
    rw [lookupA_filter_of_true k (fun kv => (lookupA kv.1 b).isNone) o (fun v => by simp [hb])]
    cases ho : lookupA k o <;> simp [ho]

/-! Claim theorems for the mode merge. -/

/-- C5: mergeModeConfig is the identity when the mode string is empty,
when modeConfig is absent, or when modeConfig has no entry for the mode. -/
theorem mergeModeConfig_identity_of_no_override {V : Type} (mode : Str) (u : UserConfig V)
    (h : mode = [] ∨ u.modeConfig = none ∨
      ∀ mc, u.modeConfig = some mc → lookupA mode mc = none) :
    mergeModeConfig mode u = u := by
  obtain ⟨up, umc, ue⟩ := u
  cases umc with
  | none => rfl
  | some mc =>
    rcases h with h | h | h
    · subst h
      simp [mergeModeConfig]
    · exact absurd h (by simp)
    · have hl := h mc rfl
      by_cases hm : mode = []
      · simp [mergeModeConfig, hm]
      · simp [mergeModeConfig, if_neg hm, hl]

/-- Witness for C5 at a concrete configuration without modeConfig. -/
theorem mergeModeConfig_identity_of_no_override_witness :
    mergeModeConfig modeDev cfgC5 = cfgC5 :=
  mergeModeConfig_identity_of_no_override modeDev cfgC5 (Or.inr (Or.inl rfl))

/-- C1: when the mode has an override with a plugins list, the merged
plugins list keeps the base length plus the appended new entries, its tail
beyond the base length is exactly the override entries whose identifier is
absent from the base key list in override order, each base position holds
the last override entry whose identifier first occurs at that position and
the original base entry when none does, and every basic override field
overwrites the corresponding top-level field shallowly. -/
theorem mergeModeConfig_plugin_reconciliation {V : Type} (mode : Str) (u : UserConfig V)
    (mc : List (Str × ModeOverride V)) (ov : ModeOverride V) (ps : List (PluginEntry V))
    (hmc : u.modeConfig = some mc) (hmode : mode ≠ [])
    (hov : lookupA mode mc = some ov) (hps : ov.plugins = some ps) :
    (mergeModeConfig mode u).plugins.length
        = u.plugins.length + (newPlugins u.plugins ps).length
    ∧ (mergeModeConfig mode u).plugins.drop u.plugins.length = newPlugins u.plugins ps
    ∧ (∀ i b, u.plugins[i]? = some b →
        (mergeModeConfig mode u).plugins[i]?
          = some (((ps.filter (fun q =>
              decide (idxOf (pluginId q) (pluginKeys u.plugins) = i))).getLast?).getD b))
    ∧ (∀ k v, lookupA k ov.extra = some v →
        lookupA k (mergeModeConfig mode u).extra = some v) := by
  obtain ⟨up, umc, ue⟩ := u
  have hmc' : umc = some mc := hmc
  subst hmc'
  obtain ⟨ovp, ovm, ove⟩ := ov
  have hps' : ovp = some ps := hps
  subst hps'
  have hred : mergeModeConfig mode (UserConfig.mk up (some mc) ue)
      = UserConfig.mk (mergePlugins up ps) (ovm.elim (some mc) some)
          (spreadFields ue ove) := by
    cases ovm with
    | none =>
      simp [mergeModeConfig, if_neg hmode, hov, ModeOverride.plugins, ModeOverride.modeConfig,
        ModeOverride.extra, Option.elim]
    | some m =>
      simp [mergeModeConfig, if_neg hmode, hov, ModeOverride.plugins, ModeOverride.modeConfig,
        ModeOverride.extra, Option.elim]
  rw [hred]
  refine ⟨?_, ?_, ?_, ?_⟩
  · show (mergePlugins up ps).length = up.length + (newPlugins up ps).length
    rw [mergePlugins_split, List.length_append, replaceCore_length]
  · show (mergePlugins up ps).drop up.length = newPlugins up ps
    rw [mergePlugins_split]
    have h1 : (replaceCore up ps).length = up.length := replaceCore_length up ps
    rw [← h1, drop_len_append]
  · intro i b hb
    have hb' : up[i]? = some b := hb
    show (mergePlugins up ps)[i]? = _
    rw [mergePlugins_split]
    rw [getElem?_append_lt _ _ i (by rw [replaceCore_length]; exact getElem?_some_lt up i b hb')]
    exact replaceCore_getElem? up ps i b hb'
  · intro k v hv
    have hv' : lookupA k ove = some v := hv
    show lookupA k (spreadFields ue ove) = some v
    rw [lookupA_spreadFields, hv']

/-- Witness for C1 on the worked example of the specification: base A and
B with options 1, override B with options 2 then C, merged to A, B with
options 2, C. -/
theorem mergeModeConfig_plugin_reconciliation_witness :
    (mergeModeConfig modeDev cfgC1).plugins[1]? = some (PluginEntry.pair keyB 2)
    ∧ (mergeModeConfig modeDev cfgC1).plugins.drop 2 = [PluginEntry.name keyC]
    ∧ (mergeModeConfig modeDev cfgC1).plugins.length = 3 := by
  have h := mergeModeConfig_plugin_reconciliation modeDev cfgC1 mcC1 ovC1 psC1 rfl
    (by decide) rfl rfl
  refine ⟨?_, ?_, ?_⟩
  · exact (h.2.2.1 1 (PluginEntry.pair keyB 1) rfl).trans (by decide)
  · exact h.2.1.trans (by decide)
  · exact h.1.trans (by decide)

/-- C2 fails as stated: with base plugins A and a mode override listing C
twice, the merged plugins list holds two entries with identifier C. -/
theorem mergePlugins_duplicate_identifier_counterexample :
    ¬ (pluginKeys (mergeModeConfig modeDev cfgC2).plugins).Nodup := by decide

/-- C2 amended: when the base plugins list and the plugins list of the
override in play each carry pairwise distinct identifiers, the merged
plugins list carries pairwise distinct identifiers. -/
theorem mergeModeConfig_nodup_identifiers {V : Type} (mode : Str) (u : UserConfig V)
    (hbase : (pluginKeys u.plugins).Nodup)
    (hov : ∀ mc ov ps, u.modeConfig = some mc → lookupA mode mc = some ov →
      ov.plugins = some ps → (pluginKeys ps).Nodup) :
    (pluginKeys (mergeModeConfig mode u).plugins).Nodup := by
  obtain ⟨up, umc, ue⟩ := u
  cases umc with
  | none => exact hbase
  | some mc =>
    by_cases hm : mode = []
    · simpa [mergeModeConfig, hm] using hbase
    · cases hl : lookupA mode mc with
      | none => simpa [mergeModeConfig, if_neg hm, hl] using hbase
      | some ov =>
        obtain ⟨ovp, ovm, ove⟩ := ov
        cases ovp with
        | none =>
          have hred : (mergeModeConfig mode (UserConfig.mk up (some mc) ue)).plugins = up := by
            simp [mergeModeConfig, if_neg hm, hl, ModeOverride.plugins]
          rw [hred]
          exact hbase
        | some ps =>
          have hps : (pluginKeys ps).Nodup :=
            hov mc (ModeOverride.mk (some ps) ovm ove) ps rfl hl rfl
          have hred : (mergeModeConfig mode (UserConfig.mk up (some mc) ue)).plugins
              = mergePlugins up ps := by
            simp [mergeModeConfig, if_neg hm, hl, ModeOverride.plugins]
          rw [hred, mergePlugins_split, pluginKeys_append, replaceCore_keys]
          refine List.Nodup.append hbase ?_ ?_
          · have hsub : (newPlugins up ps).Sublist ps := List.filter_sublist ps
            exact List.Nodup.sublist (hsub.map pluginId) hps
          · intro x hx hx2
            rcases List.mem_map.mp hx2 with ⟨q, hq, rfl⟩
            rcases List.mem_filter.mp hq with ⟨hq1, hq2⟩
            have hle : (pluginKeys up).length ≤ idxOf (pluginId q) (pluginKeys up) :=
              of_decide_eq_true hq2
            have hlt : idxOf (pluginId q) (pluginKeys up) < (pluginKeys up).length :=
              (idxOf_lt_length_iff (pluginId q) (pluginKeys up)).mpr hx
            exact absurd hlt (Nat.not_lt.mpr hle)

/-- Witness for the amended C2 on the worked example with distinct
identifiers on both sides. -/
theorem mergeModeConfig_nodup_identifiers_witness :
    (pluginKeys (mergeModeConfig modeDev cfgC1).plugins).Nodup := by
  apply mergeModeConfig_nodup_identifiers
  · decide
  · intro mc ov ps h1 h2 h3
    have e1 : some mcC1 = some mc := h1
    injection e1 with e1
    subst e1
    have e2 : some ovC1 = some ov := h2
    injection e2 with e2
    subst e2
    have e3 : some psC1 = some ps := h3
    injection e3 with e3
    subst e3
    decide

/-- C6: when the override in play declares no modeConfig field of its own,
the modeConfig of the input survives unchanged into the merge result, and
every top-level field not named among the basic override fields keeps its
value. -/
theorem mergeModeConfig_frame_preserved {V : Type} (mode : Str) (u : UserConfig V)
    (mc : List (Str × ModeOverride V)) (ov : ModeOverride V)
    (hmc : u.modeConfig = some mc) (hov : lookupA mode mc = some ov)
    (hnomc : ov.modeConfig = none) :
    (mergeModeConfig mode u).modeConfig = u.modeConfig
    ∧ ∀ k, lookupA k ov.extra = none →
        lookupA k (mergeModeConfig mode u).extra = lookupA k u.extra := by
  obtain ⟨up, umc, ue⟩ := u
  have hmc' : umc = some mc := hmc
  subst hmc'
  by_cases hm : mode = []
  · constructor
    · simp [mergeModeConfig, hm]
    · intro k hk
      simp [mergeModeConfig, hm]
  · obtain ⟨ovp, ovm, ove⟩ := ov
    have hnomc' : ovm = none := hnomc
    subst hnomc'
    have hred : mergeModeConfig mode (UserConfig.mk up (some mc) ue)
        = UserConfig.mk (match ovp with
            | some ps => mergePlugins up ps
            | none => up) (some mc) (spreadFields ue ove) := by
      simp [mergeModeConfig, if_neg hm, hov, ModeOverride.plugins, ModeOverride.modeConfig,
        ModeOverride.extra]
    constructor
    · rw [hred]
    · intro k hk
      rw [hred]
      have hk' : lookupA k ove = none := hk
      show lookupA k (spreadFields ue ove) = lookupA k ue
      rw [lookupA_spreadFields, hk']

/-- Witness for C6 on the worked example, whose override has no modeConfig
field and no basic field named z. -/
theorem mergeModeConfig_frame_preserved_witness :
    (mergeModeConfig modeDev cfgC1).modeConfig = cfgC1.modeConfig
    ∧ lookupA ('z' :: []) (mergeModeConfig modeDev cfgC1).extra
        = lookupA ('z' :: []) cfgC1.extra := by
  have h := mergeModeConfig_frame_preserved modeDev cfgC1 mcC1 ovC1 rfl rfl rfl
  exact ⟨h.1, h.2 ('z' :: []) rfl⟩

/-! Claim theorems for the transient module execution and the loaders. -/

/-- C4: the temporary artifact at the derived path is absent from the file
system when executeTypescriptModule finishes, on the success path and on
the failure path alike, for every initial state and all collaborators. -/
theorem executeTypescriptModule_artifact_deleted {J : Type}
    (loadEsm loadCjs : Str → Except (Thrown J) J) (defaultField : J → Option J)
    (st : ExecState) (code filePath : Str) (isEsm : Bool) :
    (executeTypescriptModule loadEsm loadCjs defaultField st code filePath isEsm).state.fs
      (tempPath filePath isEsm) = none := by
  simp only [executeTypescriptModule]
  cases hl : loadArtifact loadEsm loadCjs isEsm (tempPath filePath isEsm) <;> simp [hl]

/-- C10: a thrown value that is not an Error is re-raised unmodified, and
the temporary artifact is still deleted before re-raising. -/
theorem executeTypescriptModule_nonError_rethrow {J : Type}
    (loadEsm loadCjs : Str → Except (Thrown J) J) (defaultField : J → Option J)
    (st : ExecState) (code filePath : Str) (isEsm : Bool) (j : J)
    (hld : loadArtifact loadEsm loadCjs isEsm (tempPath filePath isEsm)
      = Except.error (Thrown.other j)) :
    (executeTypescriptModule loadEsm loadCjs defaultField st code filePath isEsm).result
      = Except.error (Thrown.other j)
    ∧ (executeTypescriptModule loadEsm loadCjs defaultField st code filePath isEsm).state.fs
        (tempPath filePath isEsm) = none := by
  refine ⟨?_, ?_⟩ <;> simp [executeTypescriptModule, hld]

/-- Witness for C10 at a concrete loader throwing the number seven. -/
theorem executeTypescriptModule_nonError_rethrow_witness :
    (executeTypescriptModule loadCe10 loadCe10 defaultNone st0 [] fpA true).result
      = Except.error (Thrown.other 7)
    ∧ (executeTypescriptModule loadCe10 loadCe10 defaultNone st0 [] fpA true).state.fs
        (tempPath fpA true) = none :=
  executeTypescriptModule_nonError_rethrow loadCe10 loadCe10 defaultNone st0 [] fpA true 7 rfl

/-- C3 fails as stated: a thrown message embedding the temporary path twice
still contains the temporary path after the rewriting, because only the
first occurrence is substituted. -/
theorem executeTypescriptModule_second_occurrence_counterexample :
    (tempPath fpA true <:+: ("a.mjs a.mjs".toList))
    ∧ (executeTypescriptModule loadCe3b loadCe3b defaultNone st0 [] fpA true).result
        = Except.error (Thrown.jsError ("a a.mjs".toList) [])
    ∧ (tempPath fpA true <:+: ("a a.mjs".toList)) := by
  refine ⟨by decide, rfl, by decide⟩

/-- C3 amended: when the load throws an Error, the error surfaces with the
first occurrence of the temporary path in the message and the first in the
stack replaced by the original path, and whenever the message embedded the
temporary path the rewritten message contains the original path. -/
theorem executeTypescriptModule_error_rewrite_first {J : Type}
    (loadEsm loadCjs : Str → Except (Thrown J) J) (defaultField : J → Option J)
    (st : ExecState) (code filePath : Str) (isEsm : Bool) (msg stk : Str)
    (hld : loadArtifact loadEsm loadCjs isEsm (tempPath filePath isEsm)
      = Except.error (Thrown.jsError msg stk)) :
    (executeTypescriptModule loadEsm loadCjs defaultField st code filePath isEsm).result
      = Except.error (Thrown.jsError
          (replaceFirst (tempPath filePath isEsm) filePath msg)
          (replaceFirst (tempPath filePath isEsm) filePath stk))
    ∧ (tempPath filePath isEsm <:+: msg →
        filePath <:+: replaceFirst (tempPath filePath isEsm) filePath msg) := by
  constructor
  · simp [executeTypescriptModule, hld]
  · intro h
    exact rep_infix_replaceFirst _ _ _ h

/-- Witness for the amended C3 on a concrete Error whose message and stack
each embed the temporary path once. -/
theorem executeTypescriptModule_error_rewrite_first_witness :
    (executeTypescriptModule loadCe3 loadCe3 defaultNone st0 [] fpA true).result
      = Except.error (Thrown.jsError ("a boom".toList) ("at a".toList))
    ∧ fpA <:+: replaceFirst (tempPath fpA true) fpA ("a.mjs boom".toList) := by
  have h := executeTypescriptModule_error_rewrite_first loadCe3 loadCe3 defaultNone st0 []
    fpA true ("a.mjs boom".toList) ("at a.mjs".toList) rfl
  exact ⟨h.1, h.2 (by decide)⟩

/-- C7 fails as stated: a path ending in cjs under a module-type manifest
is classified asynchronous-import based by the code, while the dotted
suffix reading of the claim classifies every such path synchronous. -/
theorem isESMPath_dotted_claim_counterexample :
    isESMPath true ("a.cjs".toList) = true
    ∧ claimDottedESM true ("a.cjs".toList) = false
    ∧ isSufList (".json".toList) ("a.cjs".toList) = false := by
  refine ⟨by decide, by decide, by decide⟩

/-- C7 amended: the classification is asynchronous-import exactly when the
path ends with the letters mjs or mts, or the manifest declares the module
type and the path ends with the letters js or ts, with no dot required
before the suffix letters. -/
theorem isESMPath_characterization (tm : Bool) (p : Str) :
    isESMPath tm p = true ↔
      (("mjs".toList <:+ p) ∨ ("mts".toList <:+ p))
      ∨ (tm = true ∧ (("js".toList <:+ p) ∨ ("ts".toList <:+ p))) := by
  simp [isESMPath, isSufList_iff, Bool.or_eq_true, Bool.and_eq_true]

/-- Witness applying the amended C7 classification at a concrete path. -/
theorem isESMPath_characterization_witness :
    isESMPath true ("a.cjs".toList) = true :=
  (isESMPath_characterization true ("a.cjs".toList)).mpr
    (Or.inr ⟨rfl, Or.inl (by decide)⟩)

/-- C8: for a path with the json suffix, loadConfig returns the parsed
structured data immediately with the state untouched, whatever the module
collaborators and the manifest type are, and the permissive grammar
accepts the worked example with a comment, a trailing comma and unquoted
keys. -/
theorem loadConfig_json_branch (env : LoadEnv) (st : ExecState) (tm : Bool) (p : Str)
    (h : isSufList (".json".toList) p = true) :
    loadConfig env st tm p = (jsonOutcome (env.readFile p), st)
    ∧ json5Parse ("\x7ba:1, /*c*/ b:2,\x7d".toList)
        = Except.ok (Json.obj [(('a' :: []), Json.num 1), (('b' :: []), Json.num 2)]) := by
  constructor
  · have h' : isSufList ('.' :: 'j' :: 's' :: 'o' :: 'n' :: []) p = true := h
    simp [loadConfig, h']
  · rfl

/-- Witness for C8 at a json path with a reading oracle returning the
worked example content. -/
theorem loadConfig_json_branch_witness :
    loadConfig envJ st0 false ("a.json".toList)
      = (Except.ok (some (Json.obj [(('a' :: []), Json.num 1), (('b' :: []), Json.num 2)])), st0) := by
  have h := loadConfig_json_branch envJ st0 false ("a.json".toList) (by decide)
  exact h.1.trans rfl

/-- C9: an explicit nonempty absolute path is returned as-is, an explicit
nonempty relative path is resolved against the root directory, no explicit
path takes the first search match with an absent result on no match, and
the worked example resolves against the root. -/
theorem resolveConfigFile_dispatch :
    (∀ (search : List Str) (c root : Str), c ≠ [] → pathIsAbsolute c = true →
        resolveConfigFile search (some c) root = some c)
    ∧ (∀ (search : List Str) (c root : Str), c ≠ [] → pathIsAbsolute c = false →
        resolveConfigFile search (some c) root = some (root ++ '/' :: c))
    ∧ (∀ (search : List Str) (root : Str),
        resolveConfigFile search none root = search.head?)
    ∧ resolveConfigFile [] (some ("cfg.ts".toList)) ("/proj".toList)
        = some ("/proj/cfg.ts".toList) := by
  refine ⟨?_, ?_, ?_, by decide⟩
  · intro search c root hc habs
    simp [resolveConfigFile, hc, habs]
  · intro search c root hc habs
    simp [resolveConfigFile, pathResolve, hc, habs]
  · intro search root
    rfl

/-- Witness for C9 at concrete explicit absolute and missing paths with an
empty search result. -/
theorem resolveConfigFile_dispatch_witness :
    resolveConfigFile [] (some ("/abs".toList)) ("/r".toList) = some ("/abs".toList)
    ∧ resolveConfigFile [] (none : Option Str) ("/r".toList) = none := by
  refine ⟨?_, ?_⟩
  · exact resolveConfigFile_dispatch.1 [] ("/abs".toList) ("/r".toList) (by decide) (by decide)
  · exact resolveConfigFile_dispatch.2.2.1 [] ("/r".toList)
